import Mathlib

/-!
Shallow embedding of the MCP client orchestration core (`client.py`).

The embedding models the tool-calling resolution loop of `MCPClient`:

* `Msg` mirrors the message dictionaries / objects appended to
  `self.messages` (the ConversationState): user messages appended by
  `process_query`, assistant messages (`choice.message`, carrying the raw
  tool-call requests) and tool messages appended by
  `process_openai_response`.
* `ToolCall` mirrors a model-issued tool-call request
  (`tool_call.id`, `tool_call.function.name`, `tool_call.function.arguments`).
* `Choice` / `Response` mirror one completion-API choice
  (`choice.finish_reason`, `choice.message`) and a completion response.
* `Env` carries the two external effectful calls the resolution loop makes
  per tool call: `json_loads` (argument parsing, which can raise) and
  `call_tool` (the remote tool invocation via the MCP session, which can
  raise).  Both are modelled as `Except`-returning functions; the parsed
  argument payload and the tool result content are kept opaque as `String`.
* The successive results of `self.call_openai()` are modelled as an oracle
  `script : List (Except String Response)`: each completion call consumes
  the next entry (`Except.error e` models the completion call itself
  raising `e`).

Python exceptions propagate while `self.messages` mutations already made
persist, so every operation returns
`Except (String × List Msg) (α × List Msg)`: both the error and the ok
outcome carry the message list as left behind.
-/

/-- A model-issued tool-call request: `tool_call.id`,
`tool_call.function.name`, `tool_call.function.arguments` (serialized). -/
structure ToolCall where
  id : String
  name : String
  arguments : String
  deriving DecidableEq

/-- One entry of `self.messages` (ConversationState). `assistant` carries
the text content and the raw tool-call requests of `choice.message`;
`tool` carries `tool_call_id` and the tool result content. -/
inductive Msg where
  | user (content : String)
  | assistant (content : String) (tool_calls : List ToolCall)
  | tool (tool_call_id : String) (content : String)
  deriving DecidableEq

/-- The `role` discriminant of a message. -/
def Msg.role : Msg → String
  | .user _ => "user"
  | .assistant _ _ => "assistant"
  | .tool _ _ => "tool"

/-- The assistant message inside a completion choice: `choice.message`. -/
structure ChoiceMsg where
  content : String
  tool_calls : List ToolCall
  deriving DecidableEq

/-- One completion-API candidate choice. -/
structure Choice where
  finish_reason : String
  message : ChoiceMsg
  deriving DecidableEq

/-- A completion response: one or more candidate choices. -/
structure Response where
  choices : List Choice
  deriving DecidableEq

/-- External effectful calls made per tool call: `json.loads` on the
serialized arguments and `self.session.call_tool`.  An `Except.error`
models the Python call raising. -/
structure Env where
  json_loads : String → Except String String
  call_tool : String → String → Except String String

/-- The tool-dispatch loop body of `process_openai_response`
(`for tool_call in choice.message.tool_calls: ...`, client.py:104-117):
for each request, parse the arguments (`json.loads`), invoke the remote
tool (`session.call_tool`), and append the result as a `tool` message
tagged with `tool_call.id`.  A raised exception propagates immediately,
keeping the messages appended so far. -/
def runToolCalls (env : Env) : List ToolCall → List Msg →
    Except (String × List Msg) (List Msg)
  | [], msgs => .ok msgs
  | tc :: rest, msgs =>
    match env.json_loads tc.arguments with
    | .error e => .error (e, msgs)
    | .ok args =>
      match env.call_tool tc.name args with
      | .error e => .error (e, msgs)
      | .ok result =>
        runToolCalls env rest (msgs ++ [Msg.tool tc.id result])

/-- The `for choice in response.choices` loop of `process_openai_response`
acts on the first choice whose `finish_reason` is `"tool_calls"` or
`"stop"` (both branches `return`); any other choice is skipped by the
loop.  `pickChoice` returns that first actionable choice, if any. -/
def pickChoice : List Choice → Option Choice
  | [] => none
  | c :: rest =>
    if c.finish_reason = "tool_calls" ∨ c.finish_reason = "stop" then some c
    else pickChoice rest

/-- `MCPClient.process_openai_response` (client.py:97-124).  On a
`"tool_calls"` choice: append `choice.message` to the history, run every
tool call in order, then perform the next completion call (the next
`script` entry, modelling `self.call_openai()`) and recurse on its
response.  On a `"stop"` choice: return the assistant text, leaving the
history untouched.  If no choice matches, the Python loop falls through
and the function returns `None`.  An exhausted `script` is an oracle
artifact reported as an error. -/
def process_openai_response (env : Env) (script : List (Except String Response))
    (resp : Response) (msgs : List Msg) :
    Except (String × List Msg) (Option String × List Msg) :=
  match pickChoice resp.choices with
  | none => .ok (none, msgs)
  | some choice =>
    if choice.finish_reason = "tool_calls" then
      match runToolCalls env choice.message.tool_calls
          (msgs ++ [Msg.assistant choice.message.content choice.message.tool_calls]) with
      | .error em => .error em
      | .ok msgs2 =>
        match script with
        | [] => .error ("no completion response", msgs2)
        | .error e :: _ => .error (e, msgs2)
        | .ok resp2 :: script2 => process_openai_response env script2 resp2 msgs2
    else
      .ok (some choice.message.content, msgs)
termination_by script.length
decreasing_by simp_all

/-- One completion call (`self.call_openai()`) followed by
`process_openai_response` on its result: consumes the next `script`
entry.  This is the shape shared by `process_query`'s initial call and
the recursive call inside the `"tool_calls"` branch. -/
def run_completions (env : Env) (script : List (Except String Response))
    (msgs : List Msg) :
    Except (String × List Msg) (Option String × List Msg) :=
  match script with
  | [] => .error ("no completion response", msgs)
  | .error e :: _ => .error (e, msgs)
  | .ok resp :: script2 => process_openai_response env script2 resp msgs

/-- `MCPClient.process_query` (client.py:126-134): append the user
message, call the completion API, and resolve its response. -/
def process_query (env : Env) (script : List (Except String Response))
    (query : String) (msgs : List Msg) :
    Except (String × List Msg) (Option String × List Msg) :=
  run_completions env script (msgs ++ [Msg.user query])

/-- The message list left behind by a resolution, whether it returned or
raised (Python mutations to `self.messages` persist across exceptions). -/
def outMsgs : Except (String × List Msg) (Option String × List Msg) → List Msg
  | .ok (_, m) => m
  | .error (_, m) => m

/-- The message list left behind by the tool-dispatch loop. -/
def rtcMsgs : Except (String × List Msg) (List Msg) → List Msg
  | .ok m => m
  | .error (_, m) => m

/-- A server tool descriptor (`tool.name`, `tool.description`,
`tool.inputSchema`); the schema payload is kept opaque. -/
structure ToolDescriptor where
  name : String
  description : String
  inputSchema : String
  deriving DecidableEq

/-- One completion-API tool schema as built by `get_available_tools`
(client.py:72-83): `{"type": "function", "function": {...}, "strict": True}`. -/
structure ToolSchema where
  type : String
  name : String
  description : String
  parameters : String
  strict : Bool
  deriving DecidableEq

/-- The client state fields touched by catalog building:
`self.available_tools` and `self.messages`. -/
structure ClientState where
  available_tools : List ToolSchema
  messages : List Msg
  deriving DecidableEq

/-- The list comprehension of `get_available_tools` (client.py:72-83)
mapping each server tool descriptor to the completion-API schema shape. -/
def formatTools (ts : List ToolDescriptor) : List ToolSchema :=
  ts.map fun t =>
    { type := "function", name := t.name, description := t.description,
      parameters := t.inputSchema, strict := true }

/-- `MCPClient.get_available_tools` (client.py:65-84) given the server's
descriptor list: rebuilds the schema list and assigns it to
`self.available_tools` (an assignment, not an append). -/
def get_available_tools (ts : List ToolDescriptor) (st : ClientState) :
    ClientState :=
  { st with available_tools := formatTools ts }

/-- Python `str.strip()`: drop leading and trailing whitespace. -/
def pyStrip (s : String) : String :=
  ⟨((s.data.dropWhile Char.isWhitespace).reverse.dropWhile Char.isWhitespace).reverse⟩

/-- Python `str.lower()`: lowercase every character. -/
def pyLower (s : String) : String :=
  ⟨s.data.map Char.toLower⟩

/-- Outcome of one iteration of the `chat_loop` body: `quit` breaks the
loop; `continued` goes back to the prompt, with the error text printed by
the `except` clause, if any. -/
inductive ChatOutcome where
  | quit (msgs : List Msg)
  | continued (msgs : List Msg) (errorMsg : Option String)
  deriving DecidableEq

/-- One iteration of `MCPClient.chat_loop` (client.py:141-153) on a raw
input line: strip it, break on `"quit"`, skip empty input, otherwise run
`process_query`; any exception is caught, its message printed, and the
loop continues. -/
def chat_step (env : Env) (script : List (Except String Response))
    (rawQuery : String) (msgs : List Msg) : ChatOutcome :=
  let query := pyStrip rawQuery
  if pyLower query = "quit" then .quit msgs
  else if query = "" then .continued msgs none
  else
    match process_query env script query msgs with
    | .ok (_, msgs2) => .continued msgs2 none
    | .error (e, msgs2) => .continued msgs2 (some ("Error: " ++ e))

/-! ### Referential integrity of the conversation history -/

/-- The set of tool-call ids a `tool` message may refer to after seeing
message `m`: an assistant message resets it to the ids of its tool-call
requests, a user message starts a new resolution cycle (no outstanding
requests), a tool message leaves it unchanged. -/
def stepIds (s : Option (List String)) (m : Msg) : Option (List String) :=
  match m with
  | .assistant _ tcs => some (tcs.map (·.id))
  | .user _ => none
  | .tool _ _ => s

/-- Outstanding tool-call ids after a list of messages. -/
def idsAfter (s : Option (List String)) (msgs : List Msg) : Option (List String) :=
  msgs.foldl stepIds s

/-- Whether one message respects the outstanding-ids context: a `tool`
message must carry a `tool_call_id` among the immediately preceding
assistant message's request ids. -/
def refOk1 (s : Option (List String)) (m : Msg) : Bool :=
  match m with
  | .tool tid _ =>
    match s with
    | some ids => ids.contains tid
    | none => false
  | _ => true

/-- Referential-integrity check of a history suffix given the
outstanding-ids context. -/
def refAux (s : Option (List String)) : List Msg → Bool
  | [] => true
  | m :: rest => refOk1 s m && refAux (stepIds s m) rest

/-- Referential integrity of a whole history: every `tool` message's
`tool_call_id` is the id of some tool-call request of the immediately
preceding assistant message of the same resolution cycle. -/
def refIntegrity (msgs : List Msg) : Bool :=
  refAux none msgs

/-- `new` extends `old` by appending only: nothing is removed or
reordered. -/
def appendOnly (old new : List Msg) : Prop :=
  ∃ t, new = old ++ t

/-! ### Helper data for whole-run statements -/

/-- A single-choice completion response requesting tool calls
(`finish_reason = "tool_calls"`). -/
def roundResp (content : String) (tcs : List ToolCall) : Response :=
  { choices := [{ finish_reason := "tool_calls",
                  message := { content := content, tool_calls := tcs } }] }

/-- A single-choice final-answer completion response
(`finish_reason = "stop"`). -/
def stopResp (text : String) : Response :=
  { choices := [{ finish_reason := "stop",
                  message := { content := text, tool_calls := [] } }] }

/-- A completion-call oracle for a resolution cycle of `rounds` tool
rounds (each an assistant text plus its tool-call requests) ending in a
final `stop` answer. -/
def mkScript (rounds : List (String × List ToolCall)) (final : String) :
    List (Except String Response) :=
  rounds.map (fun r => .ok (roundResp r.1 r.2)) ++ [.ok (stopResp final)]

/-- The messages one tool round appends when argument parsing is `p` and
tool invocation is `c`: the assistant message followed by one tool
message per request, in emission order. -/
def roundMsgs (p : String → String) (c : String → String → String)
    (r : String × List ToolCall) : List Msg :=
  Msg.assistant r.1 r.2 ::
    r.2.map (fun tc => Msg.tool tc.id (c tc.name (p tc.arguments)))

/-! ### Run lemmas -/

/-- When every argument parse succeeds as `p` and every tool invocation
succeeds as `c`, the tool-dispatch loop appends exactly one tool message
per request, in emission order. -/
theorem runToolCalls_eq (env : Env) (p : String → String)
    (c : String → String → String)
    (hp : ∀ s, env.json_loads s = .ok (p s))
    (hc : ∀ n a, env.call_tool n a = .ok (c n a)) :
    ∀ (tcs : List ToolCall) (msgs : List Msg),
      runToolCalls env tcs msgs =
        .ok (msgs ++ tcs.map (fun tc => Msg.tool tc.id (c tc.name (p tc.arguments)))) := by
  intro tcs
  induction tcs with
  | nil => intro msgs; simp [runToolCalls]
  | cons tc rest ih =>
    intro msgs
    simp [runToolCalls, hp, hc, ih]

/-- A `"stop"` pick returns the assistant text and leaves the history
untouched. -/
theorem por_stop (env : Env) (script : List (Except String Response))
    (resp : Response) (msgs : List Msg) (ch : Choice)
    (hpick : pickChoice resp.choices = some ch)
    (hfr : ch.finish_reason = "stop") :
    process_openai_response env script resp msgs =
      .ok (some ch.message.content, msgs) := by
  rw [process_openai_response, hpick]
  simp [hfr]

/-- No actionable choice: the loop falls through and returns `None`,
leaving the history untouched. -/
theorem por_none (env : Env) (script : List (Except String Response))
    (resp : Response) (msgs : List Msg)
    (hpick : pickChoice resp.choices = none) :
    process_openai_response env script resp msgs = .ok (none, msgs) := by
  rw [process_openai_response, hpick]

/-- A `"tool_calls"` pick whose dispatch loop finishes with history
`msgs2` continues with the next completion call on `msgs2`. -/
theorem por_toolcalls (env : Env) (script : List (Except String Response))
    (resp : Response) (msgs msgs2 : List Msg) (ch : Choice)
    (hpick : pickChoice resp.choices = some ch)
    (hfr : ch.finish_reason = "tool_calls")
    (hrun : runToolCalls env ch.message.tool_calls
        (msgs ++ [Msg.assistant ch.message.content ch.message.tool_calls]) = .ok msgs2) :
    process_openai_response env script resp msgs =
      run_completions env script msgs2 := by
  match script with
  | [] => rw [process_openai_response, hpick]; simp [hfr, hrun, run_completions]
  | .error e :: s2 => rw [process_openai_response, hpick]; simp [hfr, hrun, run_completions]
  | .ok r2 :: s2 => rw [process_openai_response, hpick]; simp [hfr, hrun, run_completions]

/-- A `"tool_calls"` pick whose dispatch loop raises propagates the
exception, with the history as the loop left it. -/
theorem por_toolcalls_err (env : Env) (script : List (Except String Response))
    (resp : Response) (msgs msgs2 : List Msg) (e : String) (ch : Choice)
    (hpick : pickChoice resp.choices = some ch)
    (hfr : ch.finish_reason = "tool_calls")
    (hrun : runToolCalls env ch.message.tool_calls
        (msgs ++ [Msg.assistant ch.message.content ch.message.tool_calls]) = .error (e, msgs2)) :
    process_openai_response env script resp msgs = .error (e, msgs2) := by
  rw [process_openai_response, hpick]
  simp [hfr, hrun]

/-- Full clean-cycle run: on the `mkScript` oracle with all tool calls
succeeding, the resolution returns the final text and the history gains
exactly each round's messages, in order. -/
theorem run_completions_mkScript (env : Env) (p : String → String)
    (c : String → String → String)
    (hp : ∀ s, env.json_loads s = .ok (p s))
    (hc : ∀ n a, env.call_tool n a = .ok (c n a)) (final : String) :
    ∀ (rounds : List (String × List ToolCall)) (msgs : List Msg),
      run_completions env (mkScript rounds final) msgs =
        .ok (some final, msgs ++ (rounds.map (roundMsgs p c)).flatten) := by
  intro rounds
  induction rounds with
  | nil =>
    intro msgs
    simp [mkScript, run_completions, stopResp, process_openai_response, pickChoice]
  | cons r rest ih =>
    intro msgs
    show run_completions env (.ok (roundResp r.1 r.2) :: mkScript rest final) msgs = _
    rw [run_completions,
      por_toolcalls env (mkScript rest final) (roundResp r.1 r.2) msgs
        (msgs ++ Msg.assistant r.1 r.2 ::
          r.2.map (fun tc => Msg.tool tc.id (c tc.name (p tc.arguments))))
        { finish_reason := "tool_calls", message := { content := r.1, tool_calls := r.2 } }
        (by simp [roundResp, pickChoice]) rfl
        (by rw [runToolCalls_eq env p c hp hc]; simp),
      ih]
    simp [roundMsgs]

/-! ### Referential-integrity and append-only lemmas -/

/-- `refAux` splits over an append, threading the outstanding-ids
context. -/
theorem refAux_append (xs : List Msg) : ∀ (s : Option (List String)) (ys : List Msg),
    refAux s (xs ++ ys) = (refAux s xs && refAux (idsAfter s xs) ys) := by
  induction xs with
  | nil => intro s ys; simp [refAux, idsAfter]
  | cons m rest ih =>
    intro s ys
    simp [refAux, idsAfter, List.foldl_cons, ih, Bool.and_assoc]

/-- The picked choice has `finish_reason` `"tool_calls"` or `"stop"`. -/
theorem pickChoice_spec : ∀ (cs : List Choice) (c : Choice),
    pickChoice cs = some c →
    c.finish_reason = "tool_calls" ∨ c.finish_reason = "stop" := by
  intro cs
  induction cs with
  | nil => intro c h; simp [pickChoice] at h
  | cons x rest ih =>
    intro c h
    rw [pickChoice] at h
    by_cases hx : x.finish_reason = "tool_calls" ∨ x.finish_reason = "stop"
    · simp [hx] at h; subst h; exact hx
    · simp [hx] at h; exact ih c h

/-- A picked choice other than `"tool_calls"` returns its assistant text
and leaves the history untouched (in runs this is the `"stop"` branch). -/
theorem por_notool (env : Env) (script : List (Except String Response))
    (resp : Response) (msgs : List Msg) (ch : Choice)
    (hpick : pickChoice resp.choices = some ch)
    (hfr : ¬ ch.finish_reason = "tool_calls") :
    process_openai_response env script resp msgs =
      .ok (some ch.message.content, msgs) := by
  rw [process_openai_response, hpick]
  simp [hfr]

/-- `appendOnly` is reflexive-by-append and transitive. -/
theorem appendOnly_trans {a b c : List Msg}
    (h1 : appendOnly a b) (h2 : appendOnly b c) : appendOnly a c := by
  obtain ⟨t1, rfl⟩ := h1
  obtain ⟨t2, rfl⟩ := h2
  exact ⟨t1 ++ t2, by simp⟩

/-- Appending is `appendOnly`. -/
theorem appendOnly_append (a t : List Msg) : appendOnly a (a ++ t) := ⟨t, rfl⟩

/-- The tool-dispatch loop only appends, whether it returns or raises. -/
theorem runToolCalls_appendOnly (env : Env) :
    ∀ (tcs : List ToolCall) (msgs : List Msg),
      appendOnly msgs (rtcMsgs (runToolCalls env tcs msgs)) := by
  intro tcs
  induction tcs with
  | nil => intro msgs; exact ⟨[], by simp [runToolCalls, rtcMsgs]⟩
  | cons tc rest ih =>
    intro msgs
    cases hjl : env.json_loads tc.arguments with
    | error e => exact ⟨[], by simp [runToolCalls, hjl, rtcMsgs]⟩
    | ok args =>
      cases hct : env.call_tool tc.name args with
      | error e => exact ⟨[], by simp [runToolCalls, hjl, hct, rtcMsgs]⟩
      | ok result =>
        have hstep : runToolCalls env (tc :: rest) msgs =
            runToolCalls env rest (msgs ++ [Msg.tool tc.id result]) := by
          simp [runToolCalls, hjl, hct]
        rw [hstep]
        exact appendOnly_trans (appendOnly_append msgs [Msg.tool tc.id result])
          (ih (msgs ++ [Msg.tool tc.id result]))

/-- The dispatch loop preserves referential integrity and leaves the
outstanding-ids context unchanged, when every request id is outstanding;
this holds for the raising outcomes too. -/
theorem runToolCalls_ref (env : Env) :
    ∀ (tcs : List ToolCall) (msgs : List Msg) (ids : List String),
      (∀ tc ∈ tcs, ids.contains tc.id = true) →
      idsAfter none msgs = some ids →
      refIntegrity msgs = true →
      refIntegrity (rtcMsgs (runToolCalls env tcs msgs)) = true ∧
        idsAfter none (rtcMsgs (runToolCalls env tcs msgs)) = some ids := by
  intro tcs
  induction tcs with
  | nil => intro msgs ids _ hids href; simp [runToolCalls, rtcMsgs, hids, href]
  | cons tc rest ih =>
    intro msgs ids hmem hids href
    cases hjl : env.json_loads tc.arguments with
    | error e => simp [runToolCalls, hjl, rtcMsgs, hids, href]
    | ok args =>
      cases hct : env.call_tool tc.name args with
      | error e => simp [runToolCalls, hjl, hct, rtcMsgs, hids, href]
      | ok result =>
        have hstep : runToolCalls env (tc :: rest) msgs =
            runToolCalls env rest (msgs ++ [Msg.tool tc.id result]) := by
          simp [runToolCalls, hjl, hct]
        rw [hstep]
        refine ih (msgs ++ [Msg.tool tc.id result]) ids
          (fun tc' h' => hmem tc' (List.mem_cons_of_mem tc h')) ?_ ?_
        · simp [idsAfter, List.foldl_append] at hids ⊢
          simp [hids, stepIds]
        · rw [refIntegrity, refAux_append, hids]
          rw [refIntegrity] at href
          have hin : tc.id ∈ ids := by
            simpa using hmem tc (List.mem_cons_self tc rest)
          simp [href, refAux, refOk1, stepIds, hin]

/-- If the continuation (the next completion call) preserves append-only
growth and referential integrity, so does one resolution step on any
response. -/
theorem por_cases (env : Env) (script : List (Except String Response))
    (resp : Response) (msgs : List Msg)
    (hrc : ∀ msgs2 : List Msg,
      appendOnly msgs2 (outMsgs (run_completions env script msgs2)) ∧
      (refIntegrity msgs2 = true →
        refIntegrity (outMsgs (run_completions env script msgs2)) = true)) :
    appendOnly msgs (outMsgs (process_openai_response env script resp msgs)) ∧
    (refIntegrity msgs = true →
      refIntegrity (outMsgs (process_openai_response env script resp msgs)) = true) := by
  cases hpick : pickChoice resp.choices with
  | none =>
    rw [por_none env script resp msgs hpick]
    exact ⟨⟨[], by simp [outMsgs]⟩, fun h => by simpa [outMsgs] using h⟩
  | some ch =>
    by_cases hfr : ch.finish_reason = "tool_calls"
    · have hids1 : idsAfter none
          (msgs ++ [Msg.assistant ch.message.content ch.message.tool_calls]) =
          some (ch.message.tool_calls.map (·.id)) := by
        simp [idsAfter, List.foldl_append, stepIds]
      have hmem1 : ∀ tc ∈ ch.message.tool_calls,
          (ch.message.tool_calls.map (·.id)).contains tc.id = true := by
        intro tc h
        simpa using List.mem_map_of_mem (·.id) h
      cases hrun : runToolCalls env ch.message.tool_calls
          (msgs ++ [Msg.assistant ch.message.content ch.message.tool_calls]) with
      | error em =>
        obtain ⟨e, m⟩ := em
        rw [por_toolcalls_err env script resp msgs m e ch hpick hfr hrun]
        constructor
        · have h1 := runToolCalls_appendOnly env ch.message.tool_calls
            (msgs ++ [Msg.assistant ch.message.content ch.message.tool_calls])
          rw [hrun] at h1
          exact appendOnly_trans (appendOnly_append msgs _)
            (by simpa [rtcMsgs, outMsgs] using h1)
        · intro h
          have href1 : refIntegrity
              (msgs ++ [Msg.assistant ch.message.content ch.message.tool_calls]) = true := by
            rw [refIntegrity, refAux_append]
            rw [refIntegrity] at h
            simp [h, refAux, refOk1]
          have h2 := runToolCalls_ref env ch.message.tool_calls
            (msgs ++ [Msg.assistant ch.message.content ch.message.tool_calls])
            (ch.message.tool_calls.map (·.id)) hmem1 hids1 href1
          rw [hrun] at h2
          simpa [rtcMsgs, outMsgs] using h2.1
      | ok msgs2 =>
        rw [por_toolcalls env script resp msgs msgs2 ch hpick hfr hrun]
        have h1 := runToolCalls_appendOnly env ch.message.tool_calls
          (msgs ++ [Msg.assistant ch.message.content ch.message.tool_calls])
        rw [hrun] at h1
        constructor
        · exact appendOnly_trans
            (appendOnly_trans (appendOnly_append msgs _)
              (by simpa [rtcMsgs] using h1))
            (hrc msgs2).1
        · intro h
          have href1 : refIntegrity
              (msgs ++ [Msg.assistant ch.message.content ch.message.tool_calls]) = true := by
            rw [refIntegrity, refAux_append]
            rw [refIntegrity] at h
            simp [h, refAux, refOk1]
          have h2 := runToolCalls_ref env ch.message.tool_calls
            (msgs ++ [Msg.assistant ch.message.content ch.message.tool_calls])
            (ch.message.tool_calls.map (·.id)) hmem1 hids1 href1
          rw [hrun] at h2
          exact (hrc msgs2).2 (by simpa [rtcMsgs] using h2.1)
    · rw [por_notool env script resp msgs ch hpick hfr]
      exact ⟨⟨[], by simp [outMsgs]⟩, fun h => by simpa [outMsgs] using h⟩

/-- Every completion-driven resolution, over any oracle and any
environment, only appends to the history and preserves referential
integrity — including the raising outcomes. -/
theorem rc_preserves (env : Env) :
    ∀ (script : List (Except String Response)) (msgs : List Msg),
      appendOnly msgs (outMsgs (run_completions env script msgs)) ∧
      (refIntegrity msgs = true →
        refIntegrity (outMsgs (run_completions env script msgs)) = true) := by
  intro script
  induction script with
  | nil =>
    intro msgs
    exact ⟨⟨[], by simp [run_completions, outMsgs]⟩,
      fun h => by simpa [run_completions, outMsgs] using h⟩
  | cons entry rest ih =>
    intro msgs
    cases entry with
    | error e =>
      exact ⟨⟨[], by simp [run_completions, outMsgs]⟩,
        fun h => by simpa [run_completions, outMsgs] using h⟩
    | ok resp =>
      show appendOnly msgs (outMsgs (process_openai_response env rest resp msgs)) ∧ _
      exact por_cases env rest resp msgs ih

/-! ### pickChoice lemmas -/

/-- If no choice has an actionable `finish_reason`, the loop falls
through. -/
theorem pickChoice_eq_none : ∀ (cs : List Choice),
    (∀ ch ∈ cs, ch.finish_reason ≠ "tool_calls" ∧ ch.finish_reason ≠ "stop") →
    pickChoice cs = none := by
  intro cs
  induction cs with
  | nil => intro _; rfl
  | cons x rest ih =>
    intro h
    rw [pickChoice]
    have hx := h x (List.mem_cons_self x rest)
    simp [hx.1, hx.2]
    exact ih fun ch hm => h ch (List.mem_cons_of_mem x hm)

/-- Skipped (non-actionable) leading choices do not affect the pick. -/
theorem pickChoice_append_skip : ∀ (pre cs : List Choice),
    (∀ ch ∈ pre, ch.finish_reason ≠ "tool_calls" ∧ ch.finish_reason ≠ "stop") →
    pickChoice (pre ++ cs) = pickChoice cs := by
  intro pre
  induction pre with
  | nil => intro cs _; rfl
  | cons x rest ih =>
    intro cs h
    have hx := h x (List.mem_cons_self x rest)
    rw [List.cons_append, pickChoice]
    simp [hx.1, hx.2]
    exact ih cs fun ch hm => h ch (List.mem_cons_of_mem x hm)

/-- The resolution step depends on the response only through the picked
choice. -/
theorem por_congr (env : Env) (script : List (Except String Response))
    (r1 r2 : Response) (msgs : List Msg)
    (h : pickChoice r1.choices = pickChoice r2.choices) :
    process_openai_response env script r1 msgs =
      process_openai_response env script r2 msgs := by
  conv_lhs => rw [process_openai_response]
  conv_rhs => rw [process_openai_response]
  rw [h]

/-! ### Concrete material for counterexamples and witnesses -/

/-- An environment whose argument parses and tool invocations always
succeed. -/
def envOk : Env :=
  { json_loads := fun s => .ok s
    call_tool := fun n a => .ok (n ++ ":" ++ a) }

/-- A tool-call request with id `"1"`. -/
def tc1 : ToolCall := { id := "1", name := "add", arguments := "a" }

/-- A tool-call request with id `"2"`. -/
def tc2 : ToolCall := { id := "2", name := "mul", arguments := "b" }

/-- An environment whose remote invocation of the tool named `"bad"`
raises `"boom"`. -/
def envC2 : Env :=
  { json_loads := fun s => .ok s
    call_tool := fun n _ => if n = "bad" then .error "boom" else .ok "fine" }

/-- A request whose remote invocation fails under `envC2`. -/
def tcBad : ToolCall := { id := "1", name := "bad", arguments := "x" }

/-- A sibling request whose invocation would succeed under `envC2`. -/
def tcGood : ToolCall := { id := "2", name := "good", arguments := "y" }

/-- An environment under which the serialized arguments `"malformed"`
fail to parse. -/
def envC5 : Env :=
  { json_loads := fun s => if s = "malformed" then .error "parse error" else .ok s
    call_tool := fun _ _ => .ok "fine" }

/-- A request carrying malformed serialized arguments. -/
def tcMal : ToolCall := { id := "1", name := "add", arguments := "malformed" }

/-- A single-choice response with the unhandled `finish_reason`
`"length"`. -/
def lenResp : Response :=
  { choices := [{ finish_reason := "length",
                  message := { content := "partial", tool_calls := [] } }] }

/-! ### Claims -/

/-- C1 counterexample: with zero tool rounds the claimed growth formula
`1 + 2×rounds + 1` demands 2 new messages, but `process_query` appends
only the user message (the final assistant message is never recorded):
the history grows by 1, not 2. -/
theorem C1_counterexample :
    process_query envOk [Except.ok (stopResp "done")] "q" [] =
      Except.ok (some "done", [Msg.user "q"]) ∧
    ([Msg.user "q"] : List Msg).length ≠ 1 + 2 * 0 + 1 := by
  constructor
  · simp [process_query, run_completions, process_openai_response, stopResp, pickChoice]
  · decide

/-- C1 (amended): for every resolution cycle whose completion responses
end in a `stop` response, with all tool dispatches succeeding,
`process_query` returns exactly the final assistant text, and the
history grows by exactly 1 (the user message) plus, per tool round,
1 (the assistant message) + the number of tool calls of that round; the
final assistant message is not appended. -/
theorem C1_theorem (env : Env) (p : String → String)
    (c : String → String → String)
    (hp : ∀ s, env.json_loads s = .ok (p s))
    (hc : ∀ n a, env.call_tool n a = .ok (c n a))
    (rounds : List (String × List ToolCall)) (final query : String)
    (msgs : List Msg) :
    process_query env (mkScript rounds final) query msgs =
      .ok (some final,
        (msgs ++ [Msg.user query]) ++ (rounds.map (roundMsgs p c)).flatten) ∧
    ((msgs ++ [Msg.user query]) ++ (rounds.map (roundMsgs p c)).flatten).length =
      msgs.length + 1 + (rounds.map (fun r => 1 + r.2.length)).sum := by
  constructor
  · rw [process_query, run_completions_mkScript env p c hp hc]
  · have hmap : (rounds.map (roundMsgs p c)).map List.length =
        rounds.map (fun r => 1 + r.2.length) := by
      induction rounds with
      | nil => rfl
      | cons r rest ih => simp [roundMsgs, ih]; omega
    simp [List.length_append, List.length_flatten, hmap]
    omega

/-- C1 witness: one tool round with two tool calls, then `stop`. -/
theorem C1_witness :
    process_query envOk (mkScript [("r", [tc1, tc2])] "done") "q" [] =
      Except.ok (some "done",
        (([] : List Msg) ++ [Msg.user "q"]) ++
          ([("r", [tc1, tc2])].map (roundMsgs id (fun n a => n ++ ":" ++ a))).flatten) ∧
    ((([] : List Msg) ++ [Msg.user "q"]) ++
        ([("r", [tc1, tc2])].map (roundMsgs id (fun n a => n ++ ":" ++ a))).flatten).length =
      ([] : List Msg).length + 1 +
        ([("r", [tc1, tc2])].map (fun r => 1 + r.2.length)).sum :=
  C1_theorem envOk id (fun n a => n ++ ":" ++ a) (fun _ => rfl) (fun _ _ => rfl)
    [("r", [tc1, tc2])] "done" "q" []

/-- C2 counterexample: the invocation of `tcBad` raises; the exception
propagates out of `process_query` (no error-content tool message is
appended, the sibling `tcGood` is never dispatched, and the pending
completion response is never consumed), contradicting the claim that the
resolver appends an error tool message and continues the loop. -/
theorem C2_counterexample :
    process_query envC2
        [Except.ok (roundResp "r" [tcBad, tcGood]), Except.ok (stopResp "done")]
        "q" [] =
      Except.error ("boom", [Msg.user "q", Msg.assistant "r" [tcBad, tcGood]]) := by
  simp [process_query, run_completions, process_openai_response, roundResp,
    pickChoice, runToolCalls, envC2, tcBad, tcGood]

/-- Dispatch of a round whose requests before the failing one all
succeed: the loop appends one tool message per preceding sibling (in
emission order), then the failing step raises, so the failed call gets
no tool message and the siblings after it are never dispatched. -/
theorem runToolCalls_fail_after (env : Env) (p : String → String)
    (c : String → String → String) (tc : ToolCall) (rest : List ToolCall)
    (e : String)
    (hfail : ∀ m : List Msg, runToolCalls env (tc :: rest) m = .error (e, m)) :
    ∀ pre : List ToolCall,
      (∀ tc' ∈ pre, env.json_loads tc'.arguments = .ok (p tc'.arguments)) →
      (∀ tc' ∈ pre, env.call_tool tc'.name (p tc'.arguments) =
        .ok (c tc'.name (p tc'.arguments))) →
      ∀ msgs : List Msg,
        runToolCalls env (pre ++ tc :: rest) msgs =
          .error (e, msgs ++
            pre.map (fun tc' => Msg.tool tc'.id (c tc'.name (p tc'.arguments)))) := by
  intro pre
  induction pre with
  | nil => intro _ _ msgs; simpa using hfail msgs
  | cons q pre2 ih =>
    intro hqp hqc msgs
    have hq_p := hqp q (List.mem_cons_self q pre2)
    have hq_c := hqc q (List.mem_cons_self q pre2)
    have hstep : runToolCalls env ((q :: pre2) ++ tc :: rest) msgs =
        runToolCalls env (pre2 ++ tc :: rest)
          (msgs ++ [Msg.tool q.id (c q.name (p q.arguments))]) := by
      simp [runToolCalls, hq_p, hq_c]
    rw [hstep, ih (fun tc' h' => hqp tc' (List.mem_cons_of_mem q h'))
      (fun tc' h' => hqc tc' (List.mem_cons_of_mem q h'))]
    simp

/-- C2 (amended): if the remote invocation of one request in a round
raises, the exception propagates out of the resolver to the caller: the
tool messages of the already-dispatched siblings before it stay
appended, no tool message is appended for the failed call, the siblings
after it are never dispatched, and no further completion call is issued;
the chat loop catches the error, prints it, and continues prompting. -/
theorem C2_theorem (env : Env) (p : String → String)
    (c : String → String → String) (script : List (Except String Response))
    (rawQuery content a e : String) (msgs : List Msg)
    (pre : List ToolCall) (tc : ToolCall) (rest : List ToolCall)
    (hpre_p : ∀ tc' ∈ pre, env.json_loads tc'.arguments = .ok (p tc'.arguments))
    (hpre_c : ∀ tc' ∈ pre, env.call_tool tc'.name (p tc'.arguments) =
      .ok (c tc'.name (p tc'.arguments)))
    (hp : env.json_loads tc.arguments = .ok a)
    (hc : env.call_tool tc.name a = .error e)
    (h1 : pyLower (pyStrip rawQuery) ≠ "quit") (h2 : pyStrip rawQuery ≠ "") :
    process_query env (.ok (roundResp content (pre ++ tc :: rest)) :: script)
        (pyStrip rawQuery) msgs =
      .error (e, (msgs ++ [Msg.user (pyStrip rawQuery),
          Msg.assistant content (pre ++ tc :: rest)]) ++
        pre.map (fun tc' => Msg.tool tc'.id (c tc'.name (p tc'.arguments)))) ∧
    chat_step env (.ok (roundResp content (pre ++ tc :: rest)) :: script)
        rawQuery msgs =
      .continued ((msgs ++ [Msg.user (pyStrip rawQuery),
          Msg.assistant content (pre ++ tc :: rest)]) ++
        pre.map (fun tc' => Msg.tool tc'.id (c tc'.name (p tc'.arguments))))
        (some ("Error: " ++ e)) := by
  have hfail : ∀ m : List Msg, runToolCalls env (tc :: rest) m = .error (e, m) := by
    intro m
    simp [runToolCalls, hp, hc]
  have hq : process_query env
      (.ok (roundResp content (pre ++ tc :: rest)) :: script) (pyStrip rawQuery) msgs =
      .error (e, (msgs ++ [Msg.user (pyStrip rawQuery),
          Msg.assistant content (pre ++ tc :: rest)]) ++
        pre.map (fun tc' => Msg.tool tc'.id (c tc'.name (p tc'.arguments)))) := by
    rw [process_query, run_completions]
    refine por_toolcalls_err env script _ _ _ e
      { finish_reason := "tool_calls",
        message := { content := content, tool_calls := pre ++ tc :: rest } } ?_ rfl ?_
    · simp [roundResp, pickChoice]
    · have h3 := runToolCalls_fail_after env p c tc rest e hfail pre hpre_p hpre_c
        ((msgs ++ [Msg.user (pyStrip rawQuery)]) ++
          [Msg.assistant content (pre ++ tc :: rest)])
      simpa using h3
  exact ⟨hq, by simp [chat_step, h1, h2, hq]⟩

/-- C2 witness: `tcGood` succeeds first (its tool message stays), then
`tcBad`'s invocation raises; `tc2` after it is never dispatched, the
pending `stop` response is never consumed, and the chat loop reports the
error and continues. -/
theorem C2_witness :
    process_query envC2
        (.ok (roundResp "r" ([tcGood] ++ tcBad :: [tc2])) ::
          [Except.ok (stopResp "done")]) (pyStrip "hi") [] =
      Except.error ("boom", (([] : List Msg) ++ [Msg.user (pyStrip "hi"),
          Msg.assistant "r" ([tcGood] ++ tcBad :: [tc2])]) ++
        [tcGood].map (fun tc' =>
          Msg.tool tc'.id ((fun _ _ => "fine") tc'.name (id tc'.arguments)))) ∧
    chat_step envC2
        (.ok (roundResp "r" ([tcGood] ++ tcBad :: [tc2])) ::
          [Except.ok (stopResp "done")]) "hi" [] =
      ChatOutcome.continued ((([] : List Msg) ++ [Msg.user (pyStrip "hi"),
          Msg.assistant "r" ([tcGood] ++ tcBad :: [tc2])]) ++
        [tcGood].map (fun tc' =>
          Msg.tool tc'.id ((fun _ _ => "fine") tc'.name (id tc'.arguments))))
        (some ("Error: " ++ "boom")) :=
  C2_theorem envC2 id (fun _ _ => "fine") [Except.ok (stopResp "done")]
    "hi" "r" "x" "boom" [] [tcGood] tcBad [tc2]
    (by simp [envC2, tcGood]) (by simp [envC2, tcGood]) rfl rfl
    (by decide) (by decide)

/-- C3 (confirmed): from any history satisfying referential integrity,
any run of `process_query` — over any completion oracle, with tool
dispatches allowed to raise — leaves a history that still satisfies
referential integrity (every `tool` message's `tool_call_id` is an id of
some tool-call request of the immediately preceding assistant message of
the same resolution cycle) and that extends the old history by appending
only. -/
theorem C3_theorem (env : Env) (script : List (Except String Response))
    (query : String) (msgs : List Msg) (h : refIntegrity msgs = true) :
    refIntegrity (outMsgs (process_query env script query msgs)) = true ∧
    appendOnly msgs (outMsgs (process_query env script query msgs)) := by
  have h1 : refIntegrity (msgs ++ [Msg.user query]) = true := by
    rw [refIntegrity, refAux_append]
    rw [refIntegrity] at h
    simp [h, refAux, refOk1]
  have h2 := rc_preserves env script (msgs ++ [Msg.user query])
  exact ⟨h2.2 h1, appendOnly_trans (appendOnly_append msgs [Msg.user query]) h2.1⟩

/-- C3 witness: a history already holding a completed tool round, run
through a further resolution cycle. -/
theorem C3_witness :
    refIntegrity (outMsgs (process_query envOk
        [Except.ok (roundResp "r2" [tc2]), Except.ok (stopResp "d")] "q"
        [Msg.assistant "r1" [tc1], Msg.tool "1" "5"])) = true ∧
    appendOnly [Msg.assistant "r1" [tc1], Msg.tool "1" "5"]
      (outMsgs (process_query envOk
        [Except.ok (roundResp "r2" [tc2]), Except.ok (stopResp "d")] "q"
        [Msg.assistant "r1" [tc1], Msg.tool "1" "5"])) :=
  C3_theorem envOk [Except.ok (roundResp "r2" [tc2]), Except.ok (stopResp "d")] "q"
    [Msg.assistant "r1" [tc1], Msg.tool "1" "5"] (by decide)

/-- C4 (confirmed): a round's tool-call requests are dispatched in the
order the model emitted them, and the next completion call is issued on
the history extended with the assistant message followed by all their
result tool messages in that same emission order. -/
theorem C4_theorem (env : Env) (p : String → String)
    (c : String → String → String)
    (hp : ∀ s, env.json_loads s = .ok (p s))
    (hc : ∀ n a, env.call_tool n a = .ok (c n a))
    (content query : String) (tcs : List ToolCall)
    (script : List (Except String Response)) (msgs : List Msg) :
    process_query env (.ok (roundResp content tcs) :: script) query msgs =
      run_completions env script
        ((msgs ++ [Msg.user query]) ++ Msg.assistant content tcs ::
          tcs.map (fun tc => Msg.tool tc.id (c tc.name (p tc.arguments)))) := by
  rw [process_query, run_completions]
  refine por_toolcalls env script _ _ _
    { finish_reason := "tool_calls",
      message := { content := content, tool_calls := tcs } } ?_ rfl ?_
  · simp [roundResp, pickChoice]
  · rw [runToolCalls_eq env p c hp hc]
    simp

/-- C4 witness: two tool calls, ids `"1"` then `"2"`, appended in that
order before the next completion call. -/
theorem C4_witness :
    process_query envOk [Except.ok (roundResp "r" [tc1, tc2])] "q" [] =
      run_completions envOk []
        ((([] : List Msg) ++ [Msg.user "q"]) ++ Msg.assistant "r" [tc1, tc2] ::
          [tc1, tc2].map (fun tc =>
            Msg.tool tc.id ((fun n a => n ++ ":" ++ a) tc.name (id tc.arguments)))) :=
  C4_theorem envOk id (fun n a => n ++ ":" ++ a) (fun _ => rfl) (fun _ _ => rfl)
    "r" "q" [tc1, tc2] [] []

/-- C5 counterexample: `tcMal`'s serialized arguments fail to parse;
the exception propagates out of `process_query` (no tool-error result is
appended and the pending completion response is never consumed),
contradicting the claim that the failure is surfaced to the model as a
tool message so the cycle continues. -/
theorem C5_counterexample :
    process_query envC5
        [Except.ok (roundResp "r" [tcMal]), Except.ok (stopResp "done")] "q" [] =
      Except.error ("parse error", [Msg.user "q", Msg.assistant "r" [tcMal]]) := by
  simp [process_query, run_completions, process_openai_response, roundResp,
    pickChoice, runToolCalls, envC5, tcMal]

/-- C5 (amended): if the serialized arguments of one request in a round
fail to parse, the exception propagates out of the resolver to the
caller: the tool messages of the already-dispatched siblings before it
stay appended, no tool message is appended for the failing request and
its remote tool is never invoked, the siblings after it are never
dispatched, and no further completion call is issued; the chat loop
catches the error, prints it, and continues prompting. -/
theorem C5_theorem (env : Env) (p : String → String)
    (c : String → String → String) (script : List (Except String Response))
    (rawQuery content e : String) (msgs : List Msg)
    (pre : List ToolCall) (tc : ToolCall) (rest : List ToolCall)
    (hpre_p : ∀ tc' ∈ pre, env.json_loads tc'.arguments = .ok (p tc'.arguments))
    (hpre_c : ∀ tc' ∈ pre, env.call_tool tc'.name (p tc'.arguments) =
      .ok (c tc'.name (p tc'.arguments)))
    (hp : env.json_loads tc.arguments = .error e)
    (h1 : pyLower (pyStrip rawQuery) ≠ "quit") (h2 : pyStrip rawQuery ≠ "") :
    process_query env (.ok (roundResp content (pre ++ tc :: rest)) :: script)
        (pyStrip rawQuery) msgs =
      .error (e, (msgs ++ [Msg.user (pyStrip rawQuery),
          Msg.assistant content (pre ++ tc :: rest)]) ++
        pre.map (fun tc' => Msg.tool tc'.id (c tc'.name (p tc'.arguments)))) ∧
    chat_step env (.ok (roundResp content (pre ++ tc :: rest)) :: script)
        rawQuery msgs =
      .continued ((msgs ++ [Msg.user (pyStrip rawQuery),
          Msg.assistant content (pre ++ tc :: rest)]) ++
        pre.map (fun tc' => Msg.tool tc'.id (c tc'.name (p tc'.arguments))))
        (some ("Error: " ++ e)) := by
  have hfail : ∀ m : List Msg, runToolCalls env (tc :: rest) m = .error (e, m) := by
    intro m
    simp [runToolCalls, hp]
  have hq : process_query env
      (.ok (roundResp content (pre ++ tc :: rest)) :: script) (pyStrip rawQuery) msgs =
      .error (e, (msgs ++ [Msg.user (pyStrip rawQuery),
          Msg.assistant content (pre ++ tc :: rest)]) ++
        pre.map (fun tc' => Msg.tool tc'.id (c tc'.name (p tc'.arguments)))) := by
    rw [process_query, run_completions]
    refine por_toolcalls_err env script _ _ _ e
      { finish_reason := "tool_calls",
        message := { content := content, tool_calls := pre ++ tc :: rest } } ?_ rfl ?_
    · simp [roundResp, pickChoice]
    · have h3 := runToolCalls_fail_after env p c tc rest e hfail pre hpre_p hpre_c
        ((msgs ++ [Msg.user (pyStrip rawQuery)]) ++
          [Msg.assistant content (pre ++ tc :: rest)])
      simpa using h3
  exact ⟨hq, by simp [chat_step, h1, h2, hq]⟩

/-- C5 witness: `tc1` succeeds first (its tool message stays), then
`tcMal`'s arguments fail to parse; `tc2` after it is never dispatched,
the pending `stop` response is never consumed, and the chat loop reports
the error and continues. -/
theorem C5_witness :
    process_query envC5
        (.ok (roundResp "r" ([tc1] ++ tcMal :: [tc2])) ::
          [Except.ok (stopResp "done")]) (pyStrip "go") [] =
      Except.error ("parse error", (([] : List Msg) ++ [Msg.user (pyStrip "go"),
          Msg.assistant "r" ([tc1] ++ tcMal :: [tc2])]) ++
        [tc1].map (fun tc' =>
          Msg.tool tc'.id ((fun _ _ => "fine") tc'.name (id tc'.arguments)))) ∧
    chat_step envC5
        (.ok (roundResp "r" ([tc1] ++ tcMal :: [tc2])) ::
          [Except.ok (stopResp "done")]) "go" [] =
      ChatOutcome.continued ((([] : List Msg) ++ [Msg.user (pyStrip "go"),
          Msg.assistant "r" ([tc1] ++ tcMal :: [tc2])]) ++
        [tc1].map (fun tc' =>
          Msg.tool tc'.id ((fun _ _ => "fine") tc'.name (id tc'.arguments))))
        (some ("Error: " ++ "parse error")) :=
  C5_theorem envC5 id (fun _ _ => "fine") [Except.ok (stopResp "done")]
    "go" "r" "parse error" [] [tc1] tcMal [tc2]
    (by simp [envC5, tc1]) (by simp [envC5, tc1]) rfl
    (by decide) (by decide)

/-- C6 counterexample: a response whose only choice has `finish_reason`
`"length"` makes `process_query` return `None` without raising anything,
contradicting the claim that an unhandled discriminant propagates as an
error to the caller. -/
theorem C6_counterexample :
    process_query envOk [Except.ok lenResp] "q" [] =
      Except.ok (none, [Msg.user "q"]) := by
  simp [process_query, run_completions, process_openai_response, lenResp, pickChoice]

/-- C6 (amended): choices whose `finish_reason` is neither `"tool_calls"`
nor `"stop"` are silently skipped; when no choice is actionable the
resolver returns no answer (`None`) and raises no error, leaving only
the user message appended. -/
theorem C6_theorem (env : Env) (script : List (Except String Response))
    (query : String) (msgs : List Msg) (resp : Response)
    (h : ∀ ch ∈ resp.choices,
      ch.finish_reason ≠ "tool_calls" ∧ ch.finish_reason ≠ "stop") :
    process_query env (.ok resp :: script) query msgs =
      .ok (none, msgs ++ [Msg.user query]) := by
  rw [process_query, run_completions]
  exact por_none env script resp (msgs ++ [Msg.user query]) (pickChoice_eq_none resp.choices h)

/-- C6 witness: the `"length"` response, derived from the amended
theorem. -/
theorem C6_witness :
    process_query envOk [Except.ok lenResp] "w" [] =
      Except.ok (none, [] ++ [Msg.user "w"]) :=
  C6_theorem envOk [] "w" [] lenResp (by decide)

/-- C7 (confirmed): if the completion call itself raises, the current
query resolution aborts with the error reported to the caller and the
history still valid (only the user message was appended); the chat loop
catches the exception, prints the error message, and continues prompting
instead of terminating. -/
theorem C7_theorem (env : Env) (e : String)
    (script : List (Except String Response)) (rawQuery : String) (msgs : List Msg)
    (h1 : pyLower (pyStrip rawQuery) ≠ "quit") (h2 : pyStrip rawQuery ≠ "") :
    process_query env (.error e :: script) (pyStrip rawQuery) msgs =
      .error (e, msgs ++ [Msg.user (pyStrip rawQuery)]) ∧
    chat_step env (.error e :: script) rawQuery msgs =
      .continued (msgs ++ [Msg.user (pyStrip rawQuery)]) (some ("Error: " ++ e)) := by
  have hq : process_query env (.error e :: script) (pyStrip rawQuery) msgs =
      .error (e, msgs ++ [Msg.user (pyStrip rawQuery)]) := by
    rw [process_query, run_completions]
  refine ⟨hq, ?_⟩
  simp [chat_step, h1, h2, hq]

/-- C7 witness: the completion call raising `"boom"` on query `"hi"`. -/
theorem C7_witness :
    process_query envOk [Except.error "boom"] (pyStrip "hi") [] =
      Except.error ("boom", [] ++ [Msg.user (pyStrip "hi")]) ∧
    chat_step envOk [Except.error "boom"] "hi" [] =
      ChatOutcome.continued ([] ++ [Msg.user (pyStrip "hi")]) (some ("Error: " ++ "boom")) :=
  C7_theorem envOk "boom" [] "hi" [] (by decide) (by decide)

/-- A `"length"` choice carrying the text `"first"`, ahead of the
consumed choice in `C8_counterexample`. -/
def lenChoice : Choice :=
  { finish_reason := "length", message := { content := "first", tool_calls := [] } }

/-- A `"stop"` choice carrying the text `"second"`. -/
def stopChoice : Choice :=
  { finish_reason := "stop", message := { content := "second", tool_calls := [] } }

/-- C8 counterexample: with choices `[length "first", stop "second"]`,
the resolver returns `"second"` — the second choice, not the first —
contradicting the claim that it always consumes the first choice
regardless of the choices' `finish_reason` values. -/
theorem C8_counterexample :
    process_query envOk [Except.ok { choices := [lenChoice, stopChoice] }] "q" [] =
      Except.ok (some "second", [Msg.user "q"]) ∧
    stopChoice.message.content ≠ lenChoice.message.content := by
  constructor
  · simp [process_query, run_completions, process_openai_response, pickChoice,
      lenChoice, stopChoice]
  · decide

/-- C8 (amended): the resolver deterministically consumes the first
choice whose `finish_reason` is `"tool_calls"` or `"stop"`; leading
choices with any other `finish_reason` are skipped and trailing choices
are ignored, so the resolution equals that of the response containing
the consumed choice alone. -/
theorem C8_theorem (env : Env) (script : List (Except String Response))
    (msgs : List Msg) (pre post : List Choice) (ch : Choice)
    (hpre : ∀ x ∈ pre, x.finish_reason ≠ "tool_calls" ∧ x.finish_reason ≠ "stop")
    (hch : ch.finish_reason = "tool_calls" ∨ ch.finish_reason = "stop") :
    process_openai_response env script { choices := pre ++ ch :: post } msgs =
      process_openai_response env script { choices := [ch] } msgs := by
  apply por_congr
  show pickChoice (pre ++ ch :: post) = pickChoice [ch]
  rw [pickChoice_append_skip pre (ch :: post) hpre, pickChoice, pickChoice]
  simp [hch]

/-- C8 witness: skipping the `"length"` choice and ignoring a trailing
choice. -/
theorem C8_witness :
    process_openai_response envOk []
        { choices := [lenChoice] ++ stopChoice :: [lenChoice] } [] =
      process_openai_response envOk [] { choices := [stopChoice] } [] :=
  C8_theorem envOk [] [] [lenChoice] [lenChoice] stopChoice (by decide) (by decide)

/-- C9 (confirmed): catalog building is deterministic — the resulting
`available_tools` depends only on the descriptor list, not on the prior
state — and idempotent: rebuilding from the same descriptor list leaves
the same schema list, namely `formatTools ts`. -/
theorem C9_theorem (ts : List ToolDescriptor) (st1 st2 : ClientState) :
    (get_available_tools ts (get_available_tools ts st1)).available_tools =
      (get_available_tools ts st1).available_tools ∧
    (get_available_tools ts st1).available_tools =
      (get_available_tools ts st2).available_tools ∧
    (get_available_tools ts st1).available_tools = formatTools ts := by
  simp [get_available_tools]

/-- C10 (confirmed): on a `"stop"` pick the resolver returns the
choice's assistant text and leaves the history exactly as it was — the
final assistant message of a resolution cycle is never appended, so
later completion calls see a history lacking every previous final
answer. -/
theorem C10_theorem (env : Env) (script : List (Except String Response))
    (resp : Response) (msgs : List Msg) (ch : Choice)
    (hpick : pickChoice resp.choices = some ch)
    (hfr : ch.finish_reason = "stop") :
    process_openai_response env script resp msgs =
      .ok (some ch.message.content, msgs) ∧
    outMsgs (process_openai_response env script resp msgs) = msgs := by
  have h := por_stop env script resp msgs ch hpick hfr
  exact ⟨h, by rw [h]; rfl⟩

/-- The single choice of `stopResp "d"`. -/
def stopChD : Choice :=
  { finish_reason := "stop", message := { content := "d", tool_calls := [] } }

/-- C10 witness: a final answer on a non-empty history leaves it
unchanged. -/
theorem C10_witness :
    process_openai_response envOk [] (stopResp "d") [Msg.user "q"] =
      Except.ok (some stopChD.message.content, [Msg.user "q"]) ∧
    outMsgs (process_openai_response envOk [] (stopResp "d") [Msg.user "q"]) =
      [Msg.user "q"] :=
  C10_theorem envOk [] (stopResp "d") [Msg.user "q"] stopChD (by decide) rfl
